import Mathlib

/-!
Shallow embedding of the uptime-report pipeline in `app.py`.

Conventions used throughout:
* Instants are integers counting microseconds since 0001-01-01 00:00:00
  (proleptic Gregorian, the epoch of Python naive `datetime` ordinals);
  day 0 of that epoch is a Monday, so `weekday = (µs / µsPerDay) % 7`
  agrees with Python's `datetime.weekday()` (Monday = 0).
* Python `//` and `%` on a positive divisor are `Int.ediv` / `Int.emod`.
* `"HH:MM:SS"` time-of-day strings are represented by their
  second-of-day value (a `Nat`); lexicographic order and equality of the
  fixed-width strings coincide with the numeric order used here.
* Status values flowing through pandas are rationals; a pandas `NaN`
  (empty resample bin) is `Option.none`.
-/

namespace Loop

def usPerSec : Int := 1000000
def usPerHour : Int := 3600000000
def usPerDay : Int := 86400000000

/-- Second-of-day of a local naive instant (microseconds):
`strftime("%H:%M:%S")` of the instant, as seconds since midnight. -/
def secOfDay (us : Int) : Nat := ((us.ediv usPerSec).emod 86400).toNat

/-- Python `datetime.weekday()` of a naive instant: Monday = 0. -/
def weekdayOf (us : Int) : Fin 7 :=
  ⟨((us.ediv usPerDay).emod 7).toNat, by
    have h0 : (0 : Int) ≤ (us.ediv usPerDay).emod 7 := Int.emod_nonneg _ (by decide)
    have h7 : (us.ediv usPerDay).emod 7 < 7 := Int.emod_lt_of_pos _ (by decide)
    omega⟩

/-- Hour-of-day of a naive instant, `0 ≤ _ < 24`. -/
def hourOfDay (us : Int) : Nat := ((us.ediv usPerHour).emod 24).toNat

/- ### Timestamp parsing

Models `datetime.strptime(s, "%Y-%m-%d %H:%M:%S.%f UTC")`: a successful
parse yields the instant in microseconds since 0001-01-01 00:00:00; a
`ValueError` is `none`.  Calendar arithmetic follows Python's proleptic
Gregorian ordinals. -/

def digitVal (c : Char) : Option Nat :=
  if '0' ≤ c ∧ c ≤ '9' then some (c.toNat - 48) else none

def twoDigits (a b : Char) : Option Nat := do
  let x ← digitVal a
  let y ← digitVal b
  pure (10 * x + y)

def fourDigits (a b c d : Char) : Option Nat := do
  let x ← twoDigits a b
  let y ← twoDigits c d
  pure (100 * x + y)

def isLeapYear (y : Nat) : Bool := y % 4 == 0 && (y % 100 != 0 || y % 400 == 0)

def daysInMonth (y m : Nat) : Nat :=
  if m == 2 then (if isLeapYear y then 29 else 28)
  else if m == 4 || m == 6 || m == 9 || m == 11 then 30
  else 31

/-- Days in all years strictly before year `y` (Python `_days_before_year`). -/
def daysBeforeYear (y : Nat) : Nat :=
  365 * (y - 1) + (y - 1) / 4 - (y - 1) / 100 + (y - 1) / 400

/-- Days in the months of year `y` strictly before month `m`. -/
def daysBeforeMonth (y m : Nat) : Nat :=
  (List.take (m - 1) [31, 28, 31, 30, 31, 30, 31, 31, 30, 31, 30, 31]).sum
    + (if 2 < m && isLeapYear y then 1 else 0)

def natOfDigits (ds : List Nat) : Nat := ds.foldl (fun acc d => 10 * acc + d) 0

/-- The `%f` field: 1 to 6 digits, zero-padded on the right to microseconds,
followed by the literal remainder `" UTC"` and end of input. -/
def parseFracUTC (rest : List Char) : Option Nat :=
  let ds := rest.takeWhile (fun c => '0' ≤ c && c ≤ '9')
  let rem := rest.dropWhile (fun c => '0' ≤ c && c ≤ '9')
  if 1 ≤ ds.length && ds.length ≤ 6 && rem == [' ', 'U', 'T', 'C'] then
    some (natOfDigits (ds.map (fun c => c.toNat - 48)) * 10 ^ (6 - ds.length))
  else none

/-- Models `datetime.strptime(s, "%Y-%m-%d %H:%M:%S.%f UTC")`, returning the naive
instant in microseconds since 0001-01-01 00:00:00 (or `none` on `ValueError`). -/
def parseTimestampUTC (s : String) : Option Int :=
  match s.toList with
  | y1 :: y2 :: y3 :: y4 :: '-' :: mo1 :: mo2 :: '-' :: d1 :: d2 :: ' ' ::
    h1 :: h2 :: ':' :: mi1 :: mi2 :: ':' :: s1 :: s2 :: '.' :: rest => do
      let y ← fourDigits y1 y2 y3 y4
      let mo ← twoDigits mo1 mo2
      let d ← twoDigits d1 d2
      let h ← twoDigits h1 h2
      let mi ← twoDigits mi1 mi2
      let sec ← twoDigits s1 s2
      let frac ← parseFracUTC rest
      if 1 ≤ y ∧ 1 ≤ mo ∧ mo ≤ 12 ∧ 1 ≤ d ∧ d ≤ daysInMonth y mo ∧
          h ≤ 23 ∧ mi ≤ 59 ∧ sec ≤ 59 then
        let ordinal := daysBeforeYear y + daysBeforeMonth y mo + d
        pure (((ordinal - 1) * 86400 + h * 3600 + mi * 60 + sec : Int) * usPerSec + frac)
      else none
  | _ => none

end Loop
namespace Loop

/- ### Data model -/

/-- A raw document of the `store_status` collection: timestamp string and
status string, as read by `get_poll_data_of_store`. -/
structure RawObs where
  timestamp_utc : String
  status : String
deriving Repr, DecidableEq

/-- One normalized observation inside a weekday bucket:
`timestamp_local` as second-of-day, `status` as the binary signal. -/
structure Entry where
  t : Nat
  status : ℚ
deriving Repr, DecidableEq

/-- One downsampled hourly entry: the `"HH:00:00"` timestamp is the hour
number; `status` is the hourly mean, or `none` for a pandas `NaN`. -/
structure HEntry where
  hour : Nat
  status : Option ℚ
deriving Repr, DecidableEq

/-- A business-hours interval for one weekday, endpoints as second-of-day
(the `"HH:MM:SS"` strings of the records, compared as `time` values). -/
structure BizInterval where
  start_time_local : Nat
  end_time_local : Nat
deriving Repr, DecidableEq

/-- A `menu_hours` record for one store; the `day` field is one of the
keys "0".."6". -/
structure MenuRec where
  day : Fin 7
  start_time_local : Nat
  end_time_local : Nat
deriving Repr, DecidableEq

/-- The read-only environment of one report run: the three source
collections and the clocks.  `datetime.now()` is the server's naive local
clock `nowUtc + serverOff`; `tzOffset` models `pytz`'s UTC offset (in
microseconds) of a named timezone at a given UTC instant; `pollDocs`
gives the `store_status` cursor for a store, sorted by `timestamp_utc`. -/
structure Env where
  nowUtc : Int
  serverOff : Int
  tzNames : List (String × String)
  tzOffset : String → Int → Int
  storeIds : List String
  pollDocs : String → List RawObs
  menuHours : String → List MenuRec

/-- The value returned by `datetime.now()` on the server. -/
def Env.nowServer (env : Env) : Int := env.nowUtc + env.serverOff

/- ### Observation Normalizer -/

/-- Function `get_timezone_using_store_id`: first matching record, else the
"America/Chicago" fallback. -/
def get_timezone_using_store_id (env : Env) (store_id : String) : String :=
  match env.tzNames.find? (fun p => p.1 == store_id) with
  | some p => p.2
  | none => "America/Chicago"

/-- Function `utc_to_local` at instant level: `astimezone` shifts the instant by
the timezone's offset at that instant. -/
def utc_to_local (env : Env) (tz : String) (us : Int) : Int :=
  us + env.tzOffset tz us

/-- The status mapping of `get_poll_data_of_store`:
`1 if doc["status"] == "active" else 0`. -/
def status_to_binary (s : String) : ℚ := if s == "active" then 1 else 0

/-- Append an entry to one weekday's list of a bucket dictionary. -/
def bucketAppend (b : Fin 7 → List Entry) (w : Fin 7) (e : Entry) :
    Fin 7 → List Entry :=
  fun i => if i = w then b i ++ [e] else b i

/-- The document loop of `get_poll_data_of_store`, one document at a time:
skip documents parsed to an instant after `datetime.now()`, bucket the
rest by local weekday.  A `ValueError` from `strptime` propagates. -/
def pollLoop (env : Env) (tz : String) :
    List RawObs → (Fin 7 → List Entry) → Except String (Fin 7 → List Entry)
  | [], b => .ok b
  | doc :: rest, b =>
    match parseTimestampUTC doc.timestamp_utc with
    | none => .error "ValueError: time data does not match format"
    | some ts =>
      if ts > env.nowServer then pollLoop env tz rest b
      else
        let localUs := utc_to_local env tz ts
        pollLoop env tz rest
          (bucketAppend b (weekdayOf localUs)
            ⟨secOfDay localUs, status_to_binary doc.status⟩)

/-- Function `get_poll_data_of_store`: weekday buckets of a store's observations. -/
def get_poll_data_of_store (env : Env) (store_id : String) :
    Except String (Fin 7 → List Entry) :=
  pollLoop env (get_timezone_using_store_id env store_id)
    (env.pollDocs store_id) (fun _ => [])

/- ### Business-Hours Filter -/

/-- The inner loop of `filter_status_by_business_hours`: scan the day's
intervals, `break` at the first containing `t` (endpoints inclusive). -/
def entryMatches (t : Nat) : List BizInterval → Bool
  | [] => false
  | h :: rest =>
    if h.start_time_local ≤ t ∧ t ≤ h.end_time_local then true
    else entryMatches t rest

/-- Function `filter_status_by_business_hours` of the source. -/
def filter_status_by_business_hours (day_status : List Entry)
    (day_business_hours : List BizInterval) : List Entry :=
  match day_status with
  | [] => []
  | e :: rest =>
    if entryMatches e.t day_business_hours then
      e :: filter_status_by_business_hours rest day_business_hours
    else filter_status_by_business_hours rest day_business_hours

/-- Stable insertion of an entry into a list sorted by `t` (elements
already placed with an equal key stay in front, as Python `sorted`). -/
def insertByT (e : Entry) : List Entry → List Entry
  | [] => [e]
  | x :: xs => if x.t ≤ e.t then x :: insertByT e xs else e :: x :: xs

/-- Python `sorted(_, key=timestamp_local)`. -/
def sortByT (l : List Entry) : List Entry := l.foldr insertByT []

/- ### Hourly Downsampler -/

def hourOfEntry (e : Entry) : Nat := e.t / 3600

/-- The `resample("60T")` bin holding the earliest observation. -/
def hoursMin : List Entry → Nat
  | [] => 0
  | e :: es => (es.map hourOfEntry).foldl min (hourOfEntry e)

/-- The bin holding the latest observation. -/
def hoursMax : List Entry → Nat
  | [] => 0
  | e :: es => (es.map hourOfEntry).foldl max (hourOfEntry e)

/-- One row of the resampled frame: mean of the statuses inside clock
hour `h`, `NaN` (`none`) when the bin is empty. -/
def meanAtHour (l : List Entry) (h : Nat) : HEntry :=
  let xs := l.filter (fun x => hourOfEntry x == h)
  ⟨h, if xs.isEmpty then none
      else some ((xs.map Entry.status).sum / (xs.length : ℚ))⟩

/-- Function `downsampled_data`: `df.resample("60T").mean()` produces one row per
60-minute clock-hour bin from the bin of the earliest observation to the
bin of the latest, empty bins included (as `NaN`); empty input produces
an empty frame. -/
def downsampled_data (data : List Entry) : List HEntry :=
  match data with
  | [] => []
  | _ => (List.range (hoursMax data + 1 - hoursMin data)).map
      (fun i => meanAtHour data (hoursMin data + i))

/- ### Business-Hours Resolver and per-day assembly -/

def bhLoop : List MenuRec → (Fin 7 → List BizInterval) → (Fin 7 → List BizInterval)
  | [], b => b
  | r :: rest, b =>
    bhLoop rest
      (fun i => if i = r.day then b i ++ [⟨r.start_time_local, r.end_time_local⟩]
                else b i)

/-- Function `get_business_hours_of_store`: collected records per weekday, an
empty weekday replaced by the full-day interval 00:00:00–23:59:59. -/
def get_business_hours_of_store (env : Env) (store_id : String) :
    Fin 7 → List BizInterval :=
  let b := bhLoop (env.menuHours store_id) (fun _ => [])
  fun d => if b d = [] then [⟨0, 86399⟩] else b d

/-- Function `get_store_poll_data_per_day`: filter, sort, downsample, per weekday. -/
def get_store_poll_data_per_day (poll : Fin 7 → List Entry)
    (bh : Fin 7 → List BizInterval) : Fin 7 → List HEntry :=
  fun d => downsampled_data (sortByT (filter_status_by_business_hours (poll d) (bh d)))

/- ### Window Aggregator -/

/-- Key `str(i)` looked up among the dict keys "0".."6"; a missing key
(`KeyError`) is `none`. -/
def lookupDayKey (i : Int) : Option (Fin 7) :=
  if h : 0 ≤ i ∧ i < 7 then some ⟨i.toNat, by omega⟩ else none

/-- Expression `day_data["status"] if not math.isnan(day_data["status"]) else 0`. -/
def hval (e : HEntry) : ℚ :=
  match e.status with
  | none => 0
  | some q => q

/-- Python `datetime.now().weekday()` as an integer. -/
def nowWeekdayInt (env : Env) : Int := (env.nowServer.ediv usPerDay).emod 7

/-- Expression `(datetime.now() - timedelta(hours=1)).strftime("%H:00:00")`: the
hour number one hour before now. -/
def lastHourOf (env : Env) : Nat := hourOfDay (env.nowServer - usPerHour)

/-- The loop body of `uptime_today`: accumulate the day's hours; a
matching last-hour timestamp overwrites the minutes figure. -/
def utStep (lastHour : Nat) (acc : ℚ × ℚ) (e : HEntry) : ℚ × ℚ :=
  (acc.1 + hval e,
   if e.hour == lastHour then hval e * 60 else acc.2)

/-- Function `uptime_today`: pick the bucket of `str(datetime.now().weekday() - 1)`
(the `KeyError` raised for the missing key "-1" is `none`) and fold. -/
def uptime_today (env : Env) (m : Fin 7 → List HEntry) : Option (ℚ × ℚ) :=
  match lookupDayKey (nowWeekdayInt env - 1) with
  | none => none
  | some d => some ((m d).foldl (utStep (lastHourOf env)) (0, 0))

/-- Function `uptime_hours_this_week`: sum the statuses over all seven buckets. -/
def uptime_hours_this_week (m : Fin 7 → List HEntry) : ℚ :=
  (List.finRange 7).foldl (fun acc d => (m d).foldl (fun a e => a + hval e) acc) 0

/- ### Report Orchestrator -/

/-- One row of the generated report. -/
structure Row where
  store_id : String
  uptime_last_hour : ℚ
  downtime_last_hour : ℚ
  uptime_last_day : ℚ
  downtime_last_day : ℚ
  uptime_last_week : ℚ
  downtime_last_week : ℚ
deriving Repr, DecidableEq

/-- The per-store body of `generate_report`; any exception inside the
pipeline aborts with `Except.error`. -/
def buildRow (env : Env) (store_id : String) : Except String Row :=
  match get_poll_data_of_store env store_id with
  | .error e => .error e
  | .ok poll =>
  match uptime_today env
      (get_store_poll_data_per_day poll (get_business_hours_of_store env store_id)) with
  | none => .error "KeyError: day -1"
  | some (hours_today, minutes_last_hour) =>
    let hours_this_week := uptime_hours_this_week
      (get_store_poll_data_per_day poll (get_business_hours_of_store env store_id))
    .ok { store_id := store_id
          uptime_last_hour := minutes_last_hour
          uptime_last_day := hours_today
          uptime_last_week := hours_this_week
          downtime_last_hour := 60 - minutes_last_hour
          downtime_last_day := 24 - hours_today
          downtime_last_week := 168 - hours_this_week }

def reportLoop (env : Env) : List String → Except String (List Row)
  | [] => .ok []
  | sid :: rest =>
    match buildRow env sid with
    | .error e => .error e
    | .ok r =>
      match reportLoop env rest with
      | .error e => .error e
      | .ok rs => .ok (r :: rs)

/-- Function `generate_report`: the per-store loop over the distinct store ids.
There is no handler in the loop, so one store's exception aborts the
whole run with no rows at all. -/
def generate_report (env : Env) : Except String (List Row) :=
  reportLoop env env.storeIds

/- ### Report Job Coordinator -/

inductive SStatus where
  | running
  | complete
deriving Repr, DecidableEq

/-- The sentinel document (`sentinel_id: 0`) of the reports collection. -/
structure Sentinel where
  status : SStatus
  report_id : String
deriving Repr, DecidableEq

/-- The mutable state `trigger_report` touches: the sentinel, the stored
completed reports, and a supply of fresh report ids (`uuid.uuid4()`
modelled as counter-derived fresh names). -/
structure CoordState where
  sentinel : Sentinel
  reports : List (String × List Row)
  nextId : Nat
deriving Repr, DecidableEq

inductive TrigResp where
  | alreadyRunning (report_id : String)
  | completed (report_id : String)
  | crashed (e : String)
deriving Repr, DecidableEq

def freshReportId (n : Nat) : String := "report-" ++ toString n

/-- Function `trigger_report`: reject when the sentinel is `running` (HTTP 400 with
the in-flight id); otherwise mark the sentinel `running` with a fresh id,
run `generate_report` synchronously, insert the finished report and mark
the sentinel `complete`.  An exception from `generate_report` propagates
before the insert and release steps run, so they do not execute. -/
def trigger_report (env : Env) (s : CoordState) : CoordState × TrigResp :=
  if s.sentinel.status = .running then
    (s, .alreadyRunning s.sentinel.report_id)
  else
    let rid := freshReportId s.nextId
    let s1 : CoordState :=
      { s with nextId := s.nextId + 1, sentinel := ⟨.running, rid⟩ }
    match generate_report env with
    | .error e => (s1, .crashed e)
    | .ok rows =>
      let s2 := { s1 with reports := s1.reports ++ [(rid, rows)] }
      ({ s2 with sentinel := ⟨.complete, rid⟩ }, .completed rid)

/- ### Concrete run environments used below -/

/-- A run instant of Thursday 2024-01-11 12:00:00 with the server clock
on UTC; one store with an active ping Monday 09:00 and an inactive ping
Monday 10:00 (the end-to-end scenario of the spec), no timezone or
business-hours records. -/
def envHappy : Env :=
  { nowUtc := (parseTimestampUTC "2024-01-11 12:00:00.000000 UTC").getD 0
    serverOff := 0
    tzNames := []
    tzOffset := fun _ _ => 0
    storeIds := ["s1"]
    pollDocs := fun _ => [⟨"2024-01-08 09:00:00.000000 UTC", "active"⟩,
                          ⟨"2024-01-08 10:00:00.000000 UTC", "inactive"⟩]
    menuHours := fun _ => [] }

/-- The row `generate_report` produces for `envHappy`. -/
def rowHappy : Row := ⟨"s1", 0, 60, 0, 24, 1, 167⟩

/-- The same run started on a Monday (2024-01-08 12:00:00). -/
def envMonday : Env :=
  { envHappy with
    nowUtc := (parseTimestampUTC "2024-01-08 12:00:00.000000 UTC").getD 0 }

/-- A server whose local clock runs one hour ahead of UTC, processing an
observation stamped 30 minutes after the UTC processing instant. -/
def envSkew : Env :=
  { envHappy with
    serverOff := usPerHour
    pollDocs := fun _ => [⟨"2024-01-11 12:30:00.000000 UTC", "active"⟩] }

/-- Two stores: the first has an observation whose timestamp does not
parse, the second has the well-formed data of `envHappy`. -/
def envBad : Env :=
  { envHappy with
    storeIds := ["bad", "s1"]
    pollDocs := fun sid =>
      if sid == "bad" then [⟨"garbage", "active"⟩] else envHappy.pollDocs sid }

/-- Read the bucket of one weekday out of a normalizer result. -/
def bucketsOf (r : Except String (Fin 7 → List Entry)) (d : Fin 7) :
    List Entry :=
  match r with
  | .ok b => b d
  | .error _ => []

end Loop

namespace Loop

/- ### Lemmas about the Business-Hours Filter -/

theorem entryMatches_iff (t : Nat) (hs : List BizInterval) :
    entryMatches t hs = true ↔
      ∃ h ∈ hs, h.start_time_local ≤ t ∧ t ≤ h.end_time_local := by
  induction hs with
  | nil => simp [entryMatches]
  | cons h rest ih =>
    unfold entryMatches
    split_ifs with hc
    · simp only [true_iff, eq_self_iff_true]
      exact ⟨h, List.mem_cons_self _ _, hc⟩
    · rw [ih]
      constructor
      · rintro ⟨x, hx, hxt⟩
        exact ⟨x, List.mem_cons_of_mem _ hx, hxt⟩
      · rintro ⟨x, hx, hxt⟩
        rcases List.mem_cons.mp hx with rfl | hx'
        · exact absurd hxt hc
        · exact ⟨x, hx', hxt⟩

theorem filter_status_eq_filter (l : List Entry) (hs : List BizInterval) :
    filter_status_by_business_hours l hs =
      l.filter (fun e => entryMatches e.t hs) := by
  induction l with
  | nil => rfl
  | cons e rest ih =>
    unfold filter_status_by_business_hours
    rw [List.filter_cons]
    cases hm : entryMatches e.t hs <;> simp [hm, ih]

end Loop

namespace Loop

/-- C6: the Business-Hours Filter is a true filter: an observation is in
the output iff it is in the input and its time-of-day lies inside at
least one of the weekday's intervals (endpoints inclusive); retained
observations are the original entries unchanged, and the multiplicity of
any entry never grows, even across overlapping intervals. -/
theorem business_hours_filter_correct (day_status : List Entry)
    (day_business_hours : List BizInterval) (e : Entry) :
    (e ∈ filter_status_by_business_hours day_status day_business_hours ↔
      e ∈ day_status ∧ ∃ h ∈ day_business_hours,
        h.start_time_local ≤ e.t ∧ e.t ≤ h.end_time_local) ∧
    (filter_status_by_business_hours day_status day_business_hours).count e ≤
      day_status.count e := by
  rw [filter_status_eq_filter]
  constructor
  · rw [List.mem_filter, entryMatches_iff]
  · exact (List.filter_sublist _).count_le e

/-- C10: the normalizer maps a status string to binary 1 iff it is
exactly "active"; every other string is mapped to 0, and a document with
any status string (and a parseable, non-future timestamp) still produces
a bucket entry rather than being rejected or skipped. -/
theorem status_mapping (s : String) :
    (status_to_binary s = 1 ↔ s = "active") ∧
    (s ≠ "active" → status_to_binary s = 0) ∧
    (∀ (env : Env) (tz u : String) (b : Fin 7 → List Entry) (ts : Int),
      parseTimestampUTC u = some ts → ¬ ts > env.nowServer →
      pollLoop env tz [⟨u, s⟩] b =
        .ok (bucketAppend b (weekdayOf (utc_to_local env tz ts))
          ⟨secOfDay (utc_to_local env tz ts), status_to_binary s⟩)) := by
  refine ⟨?_, ?_, ?_⟩
  · unfold status_to_binary
    split_ifs with hc
    · simp only [beq_iff_eq] at hc
      simp [hc]
    · simp only [beq_iff_eq] at hc
      constructor
      · intro h01
        exact absurd h01 (by norm_num)
      · intro h
        exact absurd h hc
  · intro h
    unfold status_to_binary
    rw [if_neg]
    simp only [beq_iff_eq]
    exact h
  · intro env tz u b ts hp hfut
    unfold pollLoop
    rw [hp]
    simp only [if_neg hfut]
    rfl

end Loop

namespace Loop

/-- C9: in any sequential execution, a start request while the sentinel
is `running` is a no-op: the whole coordinator state (sentinel, stored
reports and the fresh-id supply) is unchanged, so no second report id is
generated, and the response signals "running" with the in-flight run's
original report id. -/
theorem trigger_rejected_while_running (env : Env) (s : CoordState)
    (h : s.sentinel.status = .running) :
    trigger_report env s = (s, .alreadyRunning s.sentinel.report_id) := by
  unfold trigger_report
  rw [if_pos h]

theorem trigger_rejected_while_running_witness :
    trigger_report envHappy ⟨⟨.running, "rid0"⟩, [], 5⟩ =
      (⟨⟨.running, "rid0"⟩, [], 5⟩, .alreadyRunning "rid0") :=
  trigger_rejected_while_running envHappy ⟨⟨.running, "rid0"⟩, [], 5⟩ rfl

/-- C1: when the current local weekday is Monday (0), `uptime_today`
looks up the missing dict key "-1", i.e. raises `KeyError`, and produces
no result at all — it does not select the Sunday bucket (6). -/
theorem uptime_today_monday_keyerror (env : Env) (m : Fin 7 → List HEntry)
    (h : nowWeekdayInt env = 0) :
    uptime_today env m = none := by
  unfold uptime_today
  rw [h]
  have hk : lookupDayKey (0 - 1) = none := by decide
  rw [hk]

theorem uptime_today_monday_keyerror_witness :
    nowWeekdayInt envMonday = 0 ∧
      uptime_today envMonday (fun _ => []) = none :=
  ⟨by decide, uptime_today_monday_keyerror envMonday (fun _ => []) (by decide)⟩

end Loop

namespace Loop

/- ### Lemmas about the Hourly Downsampler -/

theorem foldl_min_le_init : ∀ (xs : List Nat) (a : Nat), xs.foldl min a ≤ a := by
  intro xs
  induction xs with
  | nil => intro a; exact le_refl a
  | cons x ys ih => intro a; exact le_trans (ih (min a x)) (min_le_left a x)

theorem init_le_foldl_max : ∀ (xs : List Nat) (a : Nat), a ≤ xs.foldl max a := by
  intro xs
  induction xs with
  | nil => intro a; exact le_refl a
  | cons x ys ih => intro a; exact le_trans (le_max_left a x) (ih (max a x))

theorem foldl_min_le_mem : ∀ (xs : List Nat) (a x : Nat), x ∈ xs →
    xs.foldl min a ≤ x := by
  intro xs
  induction xs with
  | nil => intro a x hx; cases hx
  | cons y ys ih =>
    intro a x hx
    rcases List.mem_cons.mp hx with rfl | hx'
    · exact le_trans (foldl_min_le_init ys (min a x)) (min_le_right a x)
    · exact ih (min a y) x hx'

theorem mem_le_foldl_max : ∀ (xs : List Nat) (a x : Nat), x ∈ xs →
    x ≤ xs.foldl max a := by
  intro xs
  induction xs with
  | nil => intro a x hx; cases hx
  | cons y ys ih =>
    intro a x hx
    rcases List.mem_cons.mp hx with rfl | hx'
    · exact le_trans (le_max_right a x) (init_le_foldl_max ys (max a x))
    · exact ih (max a y) x hx'

theorem foldl_max_le (c : Nat) : ∀ (xs : List Nat) (a : Nat), a ≤ c →
    (∀ x ∈ xs, x ≤ c) → xs.foldl max a ≤ c := by
  intro xs
  induction xs with
  | nil => intro a ha _; exact ha
  | cons y ys ih =>
    intro a ha h
    exact ih (max a y) (max_le ha (h y (List.mem_cons_self y ys)))
      (fun x hx => h x (List.mem_cons_of_mem _ hx))

theorem hoursMin_le_of_mem (l : List Entry) (x : Entry) (hx : x ∈ l) :
    hoursMin l ≤ hourOfEntry x := by
  cases l with
  | nil => cases hx
  | cons e es =>
    simp only [hoursMin]
    rcases List.mem_cons.mp hx with rfl | hx'
    · exact foldl_min_le_init _ _
    · exact foldl_min_le_mem _ _ _ (List.mem_map_of_mem hourOfEntry hx')

theorem le_hoursMax_of_mem (l : List Entry) (x : Entry) (hx : x ∈ l) :
    hourOfEntry x ≤ hoursMax l := by
  cases l with
  | nil => cases hx
  | cons e es =>
    simp only [hoursMax]
    rcases List.mem_cons.mp hx with rfl | hx'
    · exact init_le_foldl_max _ _
    · exact mem_le_foldl_max _ _ _ (List.mem_map_of_mem hourOfEntry hx')

theorem hoursMin_le_hoursMax (l : List Entry) (hl : l ≠ []) :
    hoursMin l ≤ hoursMax l := by
  cases l with
  | nil => exact absurd rfl hl
  | cons e es =>
    simp only [hoursMin, hoursMax]
    exact le_trans (foldl_min_le_init _ _) (init_le_foldl_max _ _)

theorem mem_downsampled (l : List Entry) (h : Nat) :
    (∃ e ∈ downsampled_data l, e.hour = h) ↔
      (l ≠ [] ∧ hoursMin l ≤ h ∧ h ≤ hoursMax l) := by
  constructor
  · rintro ⟨e, he, rfl⟩
    cases l with
    | nil => simp [downsampled_data] at he
    | cons a as =>
      simp only [downsampled_data] at he
      obtain ⟨i, hi, rfl⟩ := List.mem_map.mp he
      rw [List.mem_range] at hi
      have hle := hoursMin_le_hoursMax (a :: as) (by simp)
      refine ⟨by simp, ?_, ?_⟩
      · exact Nat.le_add_right _ _
      · show hoursMin (a :: as) + i ≤ hoursMax (a :: as)
        omega
  · rintro ⟨hl, h1, h2⟩
    cases l with
    | nil => exact absurd rfl hl
    | cons a as =>
      refine ⟨meanAtHour (a :: as) h, ?_, rfl⟩
      simp only [downsampled_data]
      apply List.mem_map.mpr
      refine ⟨h - hoursMin (a :: as), List.mem_range.mpr (by omega), ?_⟩
      congr 1
      omega

theorem downsampled_mem_form (l : List Entry) (e : HEntry)
    (he : e ∈ downsampled_data l) : e = meanAtHour l e.hour := by
  cases l with
  | nil => simp [downsampled_data] at he
  | cons a as =>
    simp only [downsampled_data] at he
    obtain ⟨i, _, rfl⟩ := List.mem_map.mp he
    rfl

theorem meanAtHour_status_none_iff (l : List Entry) (h : Nat) :
    (meanAtHour l h).status = none ↔ ∀ x ∈ l, hourOfEntry x ≠ h := by
  simp only [meanAtHour]
  by_cases hxe : (l.filter (fun x => hourOfEntry x == h)).isEmpty
  · rw [if_pos hxe]
    simp only [true_iff, eq_self_iff_true]
    rw [List.isEmpty_iff, List.filter_eq_nil_iff] at hxe
    intro x hx
    have := hxe x hx
    simpa using this
  · rw [if_neg hxe]
    constructor
    · intro hcontr
      exact absurd hcontr (by simp)
    · intro hall
      exfalso
      rw [List.isEmpty_iff] at hxe
      rcases List.exists_mem_of_ne_nil _ hxe with ⟨y, hy⟩
      rcases List.mem_filter.mp hy with ⟨hyl, hyh⟩
      exact hall y hyl (by simpa using hyh)

end Loop

namespace Loop

/-- C2 fails as stated: with observations at 09:30 and 11:30 only, the
downsampled output has an entry for clock hour 10 although no input
observation falls inside that hour — pandas `resample` emits a `NaN` row
for the interior empty bin instead of omitting it. -/
theorem downsampled_gap_counterexample :
    ¬ (((downsampled_data [⟨34200, 1⟩, ⟨41400, 1⟩]).any
          (fun e => e.hour == 10)) = true ↔
        (([⟨34200, 1⟩, ⟨41400, 1⟩] : List Entry).any
          (fun x => hourOfEntry x == 10)) = true) := by
  decide

/-- C2 (amended): the downsampled output has one entry per clock hour
from the hour of the earliest observation to the hour of the latest —
so every hour containing an observation has an entry, but an interior
hour with zero observations also yields an entry, with an undefined
(`NaN`) status rather than being absent; hours outside that span yield
no entry, and empty input yields an empty output sequence. -/
theorem downsampled_hours_characterization (l : List Entry) :
    (l = [] → downsampled_data l = []) ∧
    (∀ h : Nat, (∃ e ∈ downsampled_data l, e.hour = h) ↔
      (l ≠ [] ∧ hoursMin l ≤ h ∧ h ≤ hoursMax l)) ∧
    (∀ x ∈ l, hoursMin l ≤ hourOfEntry x ∧ hourOfEntry x ≤ hoursMax l) ∧
    (∀ e ∈ downsampled_data l,
      (e.status = none ↔ ∀ x ∈ l, hourOfEntry x ≠ e.hour)) := by
  refine ⟨?_, mem_downsampled l, ?_, ?_⟩
  · rintro rfl
    rfl
  · intro x hx
    exact ⟨hoursMin_le_of_mem l x hx, le_hoursMax_of_mem l x hx⟩
  · intro e he
    have hform := downsampled_mem_form l e he
    have hch := meanAtHour_status_none_iff l e.hour
    rw [← hform] at hch
    exact hch

theorem downsampled_characterization_witness :
    downsampled_data ([] : List Entry) = [] ∧
      (∃ e ∈ downsampled_data [⟨3600, 1⟩], e.hour = 1) :=
  ⟨(downsampled_hours_characterization []).1 rfl,
   ((downsampled_hours_characterization [⟨3600, 1⟩]).2.1 1).mpr
     ⟨by decide, by decide, by decide⟩⟩

end Loop

namespace Loop

theorem status_mapping_witness :
    status_to_binary "active" = 1 ∧ status_to_binary "inactive" = 0 ∧
      status_to_binary "garbled" = 0 ∧
      pollLoop envHappy "x" [⟨"2024-01-08 09:00:00.000000 UTC", "garbled"⟩]
          (fun _ => []) =
        .ok (bucketAppend (fun _ => [])
          (weekdayOf (utc_to_local envHappy "x"
            ((parseTimestampUTC "2024-01-08 09:00:00.000000 UTC").getD 0)))
          ⟨secOfDay (utc_to_local envHappy "x"
            ((parseTimestampUTC "2024-01-08 09:00:00.000000 UTC").getD 0)),
           status_to_binary "garbled"⟩) :=
  ⟨(status_mapping "active").1.mpr rfl,
   (status_mapping "inactive").2.1 (by decide),
   (status_mapping "garbled").2.1 (by decide),
   (status_mapping "garbled").2.2 envHappy "x" "2024-01-08 09:00:00.000000 UTC"
     (fun _ => []) ((parseTimestampUTC "2024-01-08 09:00:00.000000 UTC").getD 0)
     (by decide) (by decide)⟩

end Loop

namespace Loop

/- ### Well-formedness of normalized buckets -/

theorem secOfDay_lt (us : Int) : secOfDay us < 86400 := by
  unfold secOfDay
  have h0 : (0 : Int) ≤ (us.ediv usPerSec).emod 86400 := Int.emod_nonneg _ (by decide)
  have h1 : (us.ediv usPerSec).emod 86400 < 86400 := Int.emod_lt_of_pos _ (by decide)
  omega

theorem status_to_binary_cases (s : String) :
    status_to_binary s = 0 ∨ status_to_binary s = 1 := by
  unfold status_to_binary
  split_ifs with hc
  · exact Or.inr rfl
  · exact Or.inl rfl

theorem bucketAppend_mem (b : Fin 7 → List Entry) (w : Fin 7) (e : Entry)
    (d : Fin 7) (x : Entry) (hx : x ∈ bucketAppend b w e d) :
    x ∈ b d ∨ x = e := by
  unfold bucketAppend at hx
  by_cases hd : d = w
  · rw [if_pos hd] at hx
    rcases List.mem_append.mp hx with hx' | hx'
    · exact Or.inl hx'
    · exact Or.inr (List.mem_singleton.mp hx')
  · rw [if_neg hd] at hx
    exact Or.inl hx

theorem pollLoop_entryWF (env : Env) (tz : String) :
    ∀ (docs : List RawObs) (b r : Fin 7 → List Entry),
    pollLoop env tz docs b = .ok r →
    (∀ (d : Fin 7), ∀ x ∈ b d, x.t < 86400 ∧ (x.status = 0 ∨ x.status = 1)) →
    ∀ (d : Fin 7), ∀ x ∈ r d, x.t < 86400 ∧ (x.status = 0 ∨ x.status = 1) := by
  intro docs
  induction docs with
  | nil =>
    intro b r h hb
    simp only [pollLoop] at h
    cases h
    exact hb
  | cons doc rest ih =>
    intro b r h hb
    simp only [pollLoop] at h
    split at h
    · exact Except.noConfusion h
    · split at h
      · exact ih b r h hb
      · refine ih _ r h ?_
        intro d x hx
        rcases bucketAppend_mem _ _ _ d x hx with hx' | rfl
        · exact hb d x hx'
        · exact ⟨secOfDay_lt _, status_to_binary_cases _⟩

theorem get_poll_data_entryWF (env : Env) (sid : String)
    (poll : Fin 7 → List Entry)
    (h : get_poll_data_of_store env sid = .ok poll) :
    ∀ (d : Fin 7), ∀ x ∈ poll d,
      x.t < 86400 ∧ (x.status = 0 ∨ x.status = 1) := by
  exact pollLoop_entryWF env _ _ _ poll h (fun d x hx => absurd hx (List.not_mem_nil x))

/- ### Membership through filter and sort -/

theorem filter_status_mem (l : List Entry) (hs : List BizInterval) (x : Entry)
    (hx : x ∈ filter_status_by_business_hours l hs) : x ∈ l := by
  rw [filter_status_eq_filter] at hx
  exact (List.mem_filter.mp hx).1

theorem insertByT_mem (e x : Entry) :
    ∀ (l : List Entry), x ∈ insertByT e l ↔ x = e ∨ x ∈ l := by
  intro l
  induction l with
  | nil => simp [insertByT]
  | cons y ys ih =>
    unfold insertByT
    split_ifs with hc
    · rw [List.mem_cons, ih, List.mem_cons]
      tauto
    · rw [List.mem_cons, List.mem_cons]

theorem sortByT_mem (x : Entry) :
    ∀ (l : List Entry), x ∈ sortByT l ↔ x ∈ l := by
  intro l
  induction l with
  | nil => simp [sortByT]
  | cons y ys ih =>
    show x ∈ insertByT y (sortByT ys) ↔ _
    rw [insertByT_mem, ih, List.mem_cons]

/- ### Bounds through the downsampler -/

theorem hourOfEntry_lt_24 (x : Entry) (h : x.t < 86400) : hourOfEntry x < 24 := by
  unfold hourOfEntry
  omega

theorem sum_status_bounds :
    ∀ (xs : List Entry), (∀ x ∈ xs, 0 ≤ x.status ∧ x.status ≤ 1) →
    0 ≤ (xs.map Entry.status).sum ∧ (xs.map Entry.status).sum ≤ (xs.length : ℚ) := by
  intro xs
  induction xs with
  | nil => intro _; simp
  | cons a as ih =>
    intro h
    have ha := h a (List.mem_cons_self a as)
    have hrest := ih (fun x hx => h x (List.mem_cons_of_mem _ hx))
    simp only [List.map_cons, List.sum_cons, List.length_cons]
    push_cast
    constructor
    · linarith [ha.1, hrest.1]
    · linarith [ha.2, hrest.2]

theorem meanAtHour_hval_bounds (l : List Entry) (h : Nat)
    (hl : ∀ x ∈ l, 0 ≤ x.status ∧ x.status ≤ 1) :
    0 ≤ hval (meanAtHour l h) ∧ hval (meanAtHour l h) ≤ 1 := by
  have hred : (meanAtHour l h).status =
      if (l.filter (fun x => hourOfEntry x == h)).isEmpty then none
      else some (((l.filter (fun x => hourOfEntry x == h)).map Entry.status).sum /
        ((l.filter (fun x => hourOfEntry x == h)).length : ℚ)) := rfl
  unfold hval
  rw [hred]
  by_cases hxe : (l.filter (fun x => hourOfEntry x == h)).isEmpty
  · rw [if_pos hxe]
    show (0 : ℚ) ≤ 0 ∧ (0 : ℚ) ≤ 1
    norm_num
  · rw [if_neg hxe]
    show 0 ≤ ((l.filter (fun x => hourOfEntry x == h)).map Entry.status).sum /
        ((l.filter (fun x => hourOfEntry x == h)).length : ℚ) ∧
      ((l.filter (fun x => hourOfEntry x == h)).map Entry.status).sum /
        ((l.filter (fun x => hourOfEntry x == h)).length : ℚ) ≤ 1
    have hne : l.filter (fun x => hourOfEntry x == h) ≠ [] := by
      intro hc
      rw [List.isEmpty_iff] at hxe
      exact hxe hc
    have hlen : 0 < (l.filter (fun x => hourOfEntry x == h)).length :=
      List.length_pos.mpr hne
    have hbounds := sum_status_bounds (l.filter (fun x => hourOfEntry x == h))
      (fun x hx => hl x (List.mem_filter.mp hx).1)
    have hlenQ : (0 : ℚ) < ((l.filter (fun x => hourOfEntry x == h)).length : ℚ) := by
      exact_mod_cast hlen
    constructor
    · exact div_nonneg hbounds.1 (le_of_lt hlenQ)
    · rw [div_le_one hlenQ]
      exact hbounds.2

theorem downsampled_hval_bounds (l : List Entry)
    (hl : ∀ x ∈ l, 0 ≤ x.status ∧ x.status ≤ 1) :
    ∀ e ∈ downsampled_data l, 0 ≤ hval e ∧ hval e ≤ 1 := by
  intro e he
  have hform := downsampled_mem_form l e he
  have hb := meanAtHour_hval_bounds l e.hour hl
  rw [← hform] at hb
  exact hb

theorem downsampled_length_le (l : List Entry)
    (hl : ∀ x ∈ l, hourOfEntry x < 24) :
    (downsampled_data l).length ≤ 24 := by
  cases l with
  | nil => simp [downsampled_data]
  | cons a as =>
    simp only [downsampled_data, List.length_map, List.length_range]
    have hmax : hoursMax (a :: as) ≤ 23 := by
      simp only [hoursMax]
      apply foldl_max_le
      · have := hl a (List.mem_cons_self a as)
        omega
      · intro x hx
        rcases List.mem_map.mp hx with ⟨y, hy, rfl⟩
        have := hl y (List.mem_cons_of_mem _ hy)
        omega
    omega

end Loop

namespace Loop

/- ### Bounds through the Window Aggregator -/

theorem per_day_WF (env : Env) (sid : String) (poll : Fin 7 → List Entry)
    (hWF : ∀ (d : Fin 7), ∀ x ∈ poll d,
      x.t < 86400 ∧ (x.status = 0 ∨ x.status = 1)) (d : Fin 7) :
    (get_store_poll_data_per_day poll (get_business_hours_of_store env sid) d).length ≤ 24 ∧
    ∀ e ∈ get_store_poll_data_per_day poll (get_business_hours_of_store env sid) d,
      0 ≤ hval e ∧ hval e ≤ 1 := by
  unfold get_store_poll_data_per_day
  have hmem : ∀ x ∈ sortByT (filter_status_by_business_hours (poll d)
      (get_business_hours_of_store env sid d)), x ∈ poll d := by
    intro x hx
    exact filter_status_mem _ _ x ((sortByT_mem x _).mp hx)
  constructor
  · exact downsampled_length_le _
      (fun x hx => hourOfEntry_lt_24 x (hWF d x (hmem x hx)).1)
  · refine downsampled_hval_bounds _ ?_
    intro x hx
    rcases (hWF d x (hmem x hx)).2 with h0 | h1
    · rw [h0]; norm_num
    · rw [h1]; norm_num

theorem add_hval_foldl_bounds :
    ∀ (L : List HEntry) (acc : ℚ), (∀ e ∈ L, 0 ≤ hval e ∧ hval e ≤ 1) →
    acc ≤ L.foldl (fun a e => a + hval e) acc ∧
    L.foldl (fun a e => a + hval e) acc ≤ acc + (L.length : ℚ) := by
  intro L
  induction L with
  | nil => intro acc _; simp
  | cons e rest ih =>
    intro acc h
    have he := h e (List.mem_cons_self e rest)
    have hr := ih (acc + hval e) (fun x hx => h x (List.mem_cons_of_mem _ hx))
    simp only [List.foldl_cons, List.length_cons]
    push_cast
    constructor
    · linarith [hr.1, he.1]
    · linarith [hr.2, he.2]

theorem utStep_foldl_bounds (lh : Nat) :
    ∀ (L : List HEntry) (acc : ℚ × ℚ),
    (∀ e ∈ L, 0 ≤ hval e ∧ hval e ≤ 1) →
    0 ≤ acc.1 → 0 ≤ acc.2 → acc.2 ≤ 60 →
    0 ≤ (L.foldl (utStep lh) acc).1 ∧
    (L.foldl (utStep lh) acc).1 ≤ acc.1 + (L.length : ℚ) ∧
    0 ≤ (L.foldl (utStep lh) acc).2 ∧ (L.foldl (utStep lh) acc).2 ≤ 60 := by
  intro L
  induction L with
  | nil =>
    intro acc _ h1 h2 h3
    simp only [List.foldl_nil, List.length_nil, Nat.cast_zero, add_zero]
    exact ⟨h1, le_refl _, h2, h3⟩
  | cons e rest ih =>
    intro acc h h1 h2 h3
    have he := h e (List.mem_cons_self e rest)
    have hstep1 : (utStep lh acc e).1 = acc.1 + hval e := rfl
    have hstep2 : 0 ≤ (utStep lh acc e).2 ∧ (utStep lh acc e).2 ≤ 60 := by
      unfold utStep
      by_cases hc : (e.hour == lh)
      · simp only [if_pos hc]
        constructor
        · exact mul_nonneg he.1 (by norm_num)
        · nlinarith [he.1, he.2]
      · simp only [if_neg hc]
        exact ⟨h2, h3⟩
    have hr := ih (utStep lh acc e)
      (fun x hx => h x (List.mem_cons_of_mem _ hx))
      (by rw [hstep1]; linarith [he.1]) hstep2.1 hstep2.2
    simp only [List.foldl_cons, List.length_cons]
    refine ⟨hr.1, ?_, hr.2.2⟩
    have := hr.2.1
    rw [hstep1] at this
    push_cast
    linarith [he.2]

theorem uptime_today_bounds (env : Env) (m : Fin 7 → List HEntry)
    (hm : ∀ d : Fin 7, (m d).length ≤ 24 ∧ ∀ e ∈ m d, 0 ≤ hval e ∧ hval e ≤ 1)
    (p : ℚ × ℚ) (hu : uptime_today env m = some p) :
    0 ≤ p.1 ∧ p.1 ≤ 24 ∧ 0 ≤ p.2 ∧ p.2 ≤ 60 := by
  unfold uptime_today at hu
  cases hk : lookupDayKey (nowWeekdayInt env - 1) with
  | none => rw [hk] at hu; exact Option.noConfusion hu
  | some d =>
    rw [hk] at hu
    have hp : p = (m d).foldl (utStep (lastHourOf env)) (0, 0) :=
      (Option.some.injEq _ _).mp hu.symm
    have hb := utStep_foldl_bounds (lastHourOf env) (m d) (0, 0)
      (hm d).2 (le_refl 0) (le_refl 0) (by norm_num)
    have hlen : ((m d).length : ℚ) ≤ 24 := by
      exact_mod_cast (hm d).1
    rw [hp]
    refine ⟨hb.1, ?_, hb.2.2⟩
    have := hb.2.1
    simp only at this
    linarith

theorem week_fold_bounds (m : Fin 7 → List HEntry)
    (hm : ∀ d : Fin 7, (m d).length ≤ 24 ∧ ∀ e ∈ m d, 0 ≤ hval e ∧ hval e ≤ 1) :
    ∀ (ds : List (Fin 7)) (acc : ℚ), 0 ≤ acc →
    0 ≤ ds.foldl (fun acc d => (m d).foldl (fun a e => a + hval e) acc) acc ∧
    ds.foldl (fun acc d => (m d).foldl (fun a e => a + hval e) acc) acc ≤
      acc + 24 * (ds.length : ℚ) := by
  intro ds
  induction ds with
  | nil => intro acc ha; simpa using ha
  | cons d rest ih =>
    intro acc ha
    have hinner := add_hval_foldl_bounds (m d) acc (hm d).2
    have hlen : ((m d).length : ℚ) ≤ 24 := by exact_mod_cast (hm d).1
    have hinner0 : 0 ≤ (m d).foldl (fun a e => a + hval e) acc :=
      le_trans ha hinner.1
    have hr := ih ((m d).foldl (fun a e => a + hval e) acc) hinner0
    simp only [List.foldl_cons, List.length_cons]
    refine ⟨hr.1, ?_⟩
    have h2 := hr.2
    push_cast
    push_cast at h2
    linarith [hinner.2]

theorem uptime_week_bounds (m : Fin 7 → List HEntry)
    (hm : ∀ d : Fin 7, (m d).length ≤ 24 ∧ ∀ e ∈ m d, 0 ≤ hval e ∧ hval e ≤ 1) :
    0 ≤ uptime_hours_this_week m ∧ uptime_hours_this_week m ≤ 168 := by
  unfold uptime_hours_this_week
  have hb := week_fold_bounds m hm (List.finRange 7) 0 (le_refl 0)
  refine ⟨hb.1, ?_⟩
  have h2 := hb.2
  rw [List.length_finRange] at h2
  norm_num at h2
  exact h2

end Loop

namespace Loop

/- ### The shape of rows produced by the Orchestrator -/

theorem buildRow_ok (env : Env) (sid : String) (r : Row)
    (h : buildRow env sid = .ok r) :
    ∃ poll, get_poll_data_of_store env sid = .ok poll ∧
      ∃ p : ℚ × ℚ,
        uptime_today env (get_store_poll_data_per_day poll
          (get_business_hours_of_store env sid)) = some p ∧
        r = ⟨sid, p.2, 60 - p.2, p.1, 24 - p.1,
          uptime_hours_this_week (get_store_poll_data_per_day poll
            (get_business_hours_of_store env sid)),
          168 - uptime_hours_this_week (get_store_poll_data_per_day poll
            (get_business_hours_of_store env sid))⟩ := by
  unfold buildRow at h
  split at h
  · exact Except.noConfusion h
  · rename_i poll hpoll
    split at h
    · exact Except.noConfusion h
    · rename_i p1 p2 hut
      refine ⟨poll, hpoll, (p1, p2), hut, ?_⟩
      injection h with h'
      subst h'
      rfl

theorem reportLoop_rows (env : Env) :
    ∀ (sids : List String) (rows : List Row),
    reportLoop env sids = .ok rows →
    ∀ r ∈ rows, ∃ sid, buildRow env sid = .ok r := by
  intro sids
  induction sids with
  | nil =>
    intro rows h r hr
    simp only [reportLoop] at h
    injection h with h'
    subst h'
    cases hr
  | cons sid rest ih =>
    intro rows h r hr
    simp only [reportLoop] at h
    split at h
    · exact Except.noConfusion h
    · rename_i r0 hb0
      split at h
      · exact Except.noConfusion h
      · rename_i rs hrs
        injection h with h'
        subst h'
        rcases List.mem_cons.mp hr with rfl | hr'
        · exact ⟨sid, hb0⟩
        · exact ih rs hrs r hr'

/-- C4: in every row of a generated report, downtime plus uptime is
exactly the fixed nominal window length in each of the three windows
(60 minutes, 24 hours, 168 hours). -/
theorem report_row_window_sums (env : Env) (rows : List Row)
    (h : generate_report env = .ok rows) :
    ∀ r ∈ rows,
      r.uptime_last_hour + r.downtime_last_hour = 60 ∧
      r.uptime_last_day + r.downtime_last_day = 24 ∧
      r.uptime_last_week + r.downtime_last_week = 168 := by
  intro r hr
  obtain ⟨sid, hb⟩ := reportLoop_rows env env.storeIds rows h r hr
  obtain ⟨poll, _, p, _, rfl⟩ := buildRow_ok env sid r hb
  refine ⟨by ring, by ring, by ring⟩

theorem report_row_window_sums_witness :
    generate_report envHappy = .ok [rowHappy] ∧
      rowHappy.uptime_last_hour + rowHappy.downtime_last_hour = 60 ∧
      rowHappy.uptime_last_day + rowHappy.downtime_last_day = 24 ∧
      rowHappy.uptime_last_week + rowHappy.downtime_last_week = 168 := by
  have hg : generate_report envHappy = .ok [rowHappy] := by
    with_unfolding_all rfl
  exact ⟨hg, report_row_window_sums envHappy [rowHappy] hg rowHappy
    (List.mem_singleton.mpr rfl)⟩

/-- C5: in every row of a generated report the uptime figures are bounded
by the nominal window lengths by construction (last hour ≤ 60 minutes,
last day ≤ 24 hours, last week ≤ 168 hours), hence no downtime field is
negative; no clamping exists anywhere in the pipeline. -/
theorem report_row_bounds (env : Env) (rows : List Row)
    (h : generate_report env = .ok rows) :
    ∀ r ∈ rows,
      0 ≤ r.uptime_last_hour ∧ r.uptime_last_hour ≤ 60 ∧
      0 ≤ r.uptime_last_day ∧ r.uptime_last_day ≤ 24 ∧
      0 ≤ r.uptime_last_week ∧ r.uptime_last_week ≤ 168 ∧
      0 ≤ r.downtime_last_hour ∧ 0 ≤ r.downtime_last_day ∧
      0 ≤ r.downtime_last_week := by
  intro r hr
  obtain ⟨sid, hb⟩ := reportLoop_rows env env.storeIds rows h r hr
  obtain ⟨poll, hpoll, p, hut, rfl⟩ := buildRow_ok env sid r hb
  have hWF := get_poll_data_entryWF env sid poll hpoll
  have hday := fun d => per_day_WF env sid poll hWF d
  have hub := uptime_today_bounds env _ hday p hut
  have hwb := uptime_week_bounds _ hday
  simp only
  refine ⟨hub.2.2.1, hub.2.2.2, hub.1, hub.2.1, hwb.1, hwb.2, ?_, ?_, ?_⟩
  · linarith [hub.2.2.2]
  · linarith [hub.2.1]
  · linarith [hwb.2]

theorem report_row_bounds_witness :
    generate_report envHappy = .ok [rowHappy] ∧
      0 ≤ rowHappy.uptime_last_week ∧ rowHappy.uptime_last_week ≤ 168 ∧
      0 ≤ rowHappy.downtime_last_week := by
  have hg : generate_report envHappy = .ok [rowHappy] := by
    with_unfolding_all rfl
  have hb := report_row_bounds envHappy [rowHappy] hg rowHappy
    (List.mem_singleton.mpr rfl)
  exact ⟨hg, hb.2.2.2.2.1, hb.2.2.2.2.2.1, hb.2.2.2.2.2.2.2.2⟩

end Loop

namespace Loop

/-- C3 fails on the code: the cutoff compares the parsed naive UTC
timestamp with naive `datetime.now()` (server-local), not with now-UTC.
With the server clock one hour ahead of UTC, an observation stamped 30
minutes after the UTC processing instant is kept and bucketed (here into
the Thursday bucket), so a strictly future observation does contribute. -/
theorem future_obs_not_excluded :
    parseTimestampUTC "2024-01-11 12:30:00.000000 UTC" =
      some (envSkew.nowUtc + 1800 * usPerSec) ∧
    bucketsOf (get_poll_data_of_store envSkew "s1") 3 = [⟨45000, 1⟩] := by
  constructor
  · with_unfolding_all rfl
  · with_unfolding_all rfl

/-- C7 fails on the code: the sentinel release is not in a guaranteed
execution block.  When `generate_report` raises, `trigger_report` exits
with the sentinel still `running` (and no report stored), not released
back to `complete`. -/
theorem crash_leaves_sentinel_running :
    (trigger_report envBad ⟨⟨.complete, "prev"⟩, [], 0⟩).1.sentinel.status =
      .running ∧
    (trigger_report envBad ⟨⟨.complete, "prev"⟩, [], 0⟩).2 =
      .crashed "ValueError: time data does not match format" := by
  constructor
  · with_unfolding_all rfl
  · with_unfolding_all rfl

/-- C8 fails on the code: there is no handler around the per-store
pipeline.  With two stores where only the first has a malformed
timestamp, the whole run aborts with that exception and produces no rows
at all, although the second store alone generates its row fine. -/
theorem one_store_failure_aborts_run :
    generate_report envBad =
      .error "ValueError: time data does not match format" ∧
    generate_report envHappy = .ok [rowHappy] := by
  constructor
  · with_unfolding_all rfl
  · with_unfolding_all rfl

end Loop
